import Mathlib

/-!
Verification of the flo_draw software rasterizer core.

This file gives a shallow embedding, in Lean 4, of the parts of the
`render_software` crate that the specification claims talk about, and proves
or refutes each claim against that embedding.  Machine floats (`f64`) are
modelled as rationals; the claims settled here do not depend on rounding.

Embedded modules:
  * `scanplan/buffer_stack.rs`      — `BufferStack`, `push_entry`, `pop_entry`
  * `edgeplan/edge_plan.rs`         — `EdgePlan`, `prepare_to_render`,
                                      `intercepts_on_scanlines`
  * `edges/line_stroke_edge.rs`     — `LineStrokeEdge::intercepts`
  * `filters/alpha_blend_filter.rs` — `AlphaBlendFilter::filter_line`
  * `filters/mask_filter.rs`        — `MaskFilter::filter_line`, `read_px`
  * `filters/combined_filter.rs`    — `CombinedFilter`
  * `draw/sprite.rs`                — `sprite_draw`, `sprite_mask_filter`,
                                      `sprite_displacement_filter`
  * `pixel_program_cache.rs`        — `store_program_data`
  * `render/u8_frame_renderer.rs`   — `U8FrameRenderer::render`
-/

namespace FloDraw

/-! ## Common list helpers

These model the Rust slice idioms used throughout the crate: writing through a
`zip` of an input iterator and a mutable output iterator, and splitting a
slice into exact chunks.
-/

/-- Models `for (i, (v, out)) in vs.iter().zip(out.iter_mut()).enumerate() { *out = g(i, v) }`
starting at index `i0`: output elements are overwritten while both iterators
yield, the remaining output elements are left unchanged. -/
def zipWriteIdx (g : Nat → α → β) : Nat → List α → List β → List β
  | _, _, [] => []
  | _, [], out => out
  | i, v :: vs, _ :: os => g i v :: zipWriteIdx g (i + 1) vs os

/-- Recursion core of `chunksExact`, structurally recursive on a fuel bound
(the list length shrinks by at least one per step, so `l.length` is enough
fuel). -/
def chunksExactGo (w : Nat) : Nat → List α → List (List α)
  | 0, _ => []
  | fuel + 1, l =>
    if w ≤ l.length ∧ 0 < w then
      l.take w :: chunksExactGo w fuel (l.drop w)
    else
      []

/-- Models `slice.chunks_exact(w)`: the list of complete chunks of length `w`;
any remainder shorter than `w` is not part of the result. -/
def chunksExact (w : Nat) (l : List α) : List (List α) :=
  chunksExactGo w l.length l

/-! ## `scanplan/buffer_stack.rs` -/

/-- The `BufferStack` structure: a borrowed base buffer, the pushed entries
(top of the Rust `Vec` modelled as the head of the list), and the pool of
buffers ready for re-use. -/
structure BufferStack (P : Type) where
  first : List P
  stack : List (List P)
  ready : List (List P)
deriving DecidableEq

namespace BufferStack

/-- `BufferStack::buffer`: the top entry of the stack, or the base buffer when
nothing has been pushed. -/
def buffer (s : BufferStack P) : List P :=
  match s.stack with
  | last :: _ => last
  | [] => s.first

/-- Copies `src[lo..hi]` into `dst` at the same indices, leaving the other
elements of `dst` unchanged (models `dst[range].copy_from_slice(&src[range])`).
`d` is the default element used for out-of-range reads. -/
def copyRange (d : P) (src dst : List P) (lo hi : Nat) : List P :=
  (List.range dst.length).map fun i =>
    if lo ≤ i ∧ i < hi then src.getD i d else dst.getD i d

/-- `BufferStack::push_entry`: re-uses a buffer from the ready pool when one
is available, otherwise allocates a fresh buffer of the base length filled
with the default pixel; copies the requested range from the current top, and
pushes the result. -/
def pushEntry (d : P) (lo hi : Nat) (s : BufferStack P) : BufferStack P :=
  match s.ready with
  | newEntry :: readyRest =>
    match s.stack with
    | last :: _ =>
      { s with ready := readyRest, stack := copyRange d last newEntry lo hi :: s.stack }
    | [] =>
      { s with ready := readyRest, stack := copyRange d s.first newEntry lo hi :: s.stack }
  | [] =>
    let newEntry := List.replicate s.first.length d
    match s.stack with
    | last :: _ =>
      { s with stack := copyRange d last newEntry lo hi :: s.stack }
    | [] =>
      { s with stack := copyRange d s.first newEntry lo hi :: s.stack }

/-- `BufferStack::pop_entry`: pops the top entry (if any), blends it into the
new top (or the base buffer) with the caller-supplied callback, and returns
the popped buffer to the ready pool.  The callback receives the whole removed
buffer and the whole lower buffer; its result replaces the lower buffer. -/
def popEntry (blendPixels : List P → List P → List P) (s : BufferStack P) : BufferStack P :=
  match s.stack with
  | [] => s
  | removed :: rest =>
    match rest with
    | last :: restRest =>
      { s with stack := blendPixels removed last :: restRest, ready := removed :: s.ready }
    | [] =>
      { s with first := blendPixels removed s.first, stack := [], ready := removed :: s.ready }

end BufferStack

/-! ## `edgeplan/edge_plan.rs`

The plan is generic over the edge type `TEdge: EdgeDescriptor`.  The trait
methods used by the plan are passed as explicit function arguments
(`eprepare`, `eboundingBox`, `eshape`, `eintercepts`); `f64` coordinates are
modelled as rationals.
-/

/-- The largest finite `f64` value, `(2 - 2 ^ -52) * 2 ^ 1023`, used by the
source as a sentinel (`f64::MAX`; `f64::MIN` is its negation). -/
def F64_MAX : ℚ := 2 ^ 1024 - 2 ^ 971

/-- The winding direction attached to an intercept (the spec describes it as
a plus or minus 1 winding direction). -/
inductive Direction where
  | up : Direction
  | down : Direction
deriving DecidableEq, Repr

/-- `ShapeDescriptor`: the program stack, opacity flag and z-index of a
shape. -/
structure ShapeDescriptor where
  programs : List Nat
  isOpaque : Bool
  zIndex : Int
deriving DecidableEq, Repr

/-- `EdgeIntercept` as produced by `EdgePlan::intercepts_on_scanlines`. -/
structure EdgeIntercept where
  shape : Nat
  direction : Direction
  xPos : ℚ
deriving DecidableEq, Repr

/-- `EdgePlan`: shape descriptors (the `SparseArray` is modelled as an
association list), the edges paired with their cached y-bounds, the 1-D
spatial index, and the high-water mark of prepared edges. -/
structure EdgePlan (E : Type) where
  shapes : List (Nat × ShapeDescriptor)
  edges : List (E × (ℚ × ℚ))
  edgeSpace : List ((ℚ × ℚ) × Nat)
  maxPrepared : Nat
deriving DecidableEq

namespace EdgePlan

/-- `EdgePlan::new`: the empty plan. -/
def new : EdgePlan E := ⟨[], [], [], 0⟩

/-- `EdgePlan::add_edge`: pushes an edge whose y-bounds are the sentinel
range `f64::MIN..f64::MAX` (they are recomputed by `prepare_to_render`). -/
def addEdge (p : EdgePlan E) (e : E) : EdgePlan E :=
  { p with edges := p.edges ++ [(e, (-F64_MAX, F64_MAX))] }

/-- `EdgePlan::declare_shape_description`. -/
def declareShapeDescription (p : EdgePlan E) (shapeId : Nat) (descriptor : ShapeDescriptor) :
    EdgePlan E :=
  { p with shapes := (shapeId, descriptor) :: p.shapes }

/-- `EdgePlan::prepare_to_render`: when there are unprepared edges, prepares
each edge past the high-water mark, recomputes its cached y-bounds from its
bounding box, advances the high-water mark to the edge count, and rebuilds
the spatial index from all edges; otherwise does nothing. -/
def prepareToRender (eprepare : E → E) (eboundingBox : E → (ℚ × ℚ) × (ℚ × ℚ))
    (p : EdgePlan E) : EdgePlan E :=
  if p.maxPrepared ≠ p.edges.length then
    let prepared := p.edges.take p.maxPrepared ++
      (p.edges.drop p.maxPrepared).map (fun ed =>
        let e := eprepare ed.1
        (e, ((eboundingBox e).1.2, (eboundingBox e).2.2)))
    { p with
      edges := prepared,
      maxPrepared := prepared.length,
      edgeSpace := prepared.enum.map (fun ie => (ie.2.2, ie.1)) }
  else p

end EdgePlan

/-- Modelled from the spec: `Space1D::data_in_region` comes from the external
`flo_sparse_array` crate; per the spec the index maps a y-range to the
indices of edges whose bounding-box y-range overlaps it. -/
def dataInRegion (space : List ((ℚ × ℚ) × Nat)) (lo hi : ℚ) : List Nat :=
  (space.filter (fun entry => entry.1.1 < hi ∧ lo < entry.1.2)).map (·.2)

/-- `f64::min` on the (finite) modelled floats. -/
def fmin (a b : ℚ) : ℚ := if b ≤ a then b else a

/-- `f64::max` on the (finite) modelled floats. -/
def fmax (a b : ℚ) : ℚ := if a ≤ b then b else a

/-- `EdgePlan::intercepts_on_scanlines`: finds the minimum and maximum of the
requested y-positions (folding from the `f64::MAX` / `f64::MIN` sentinels),
clears every output bucket, asks every edge in the queried y-region for its
intercepts at all y-positions at once, appends them tagged with the shape id,
and finally sorts every bucket by x position under the total order. -/
def EdgePlan.interceptsOnScanlines (eshape : E → Nat)
    (eintercepts : E → List ℚ → List (List (Direction × ℚ)))
    (p : EdgePlan E) (ys : List ℚ) (output : List (List EdgeIntercept)) :
    List (List EdgeIntercept) :=
  let yMin := ys.foldl (fun m v => fmin m v) F64_MAX
  let yMax := ys.foldl (fun m v => fmax m v) (-F64_MAX)
  let cleared := output.map (fun _ => ([] : List EdgeIntercept))
  let filled := (dataInRegion p.edgeSpace yMin (yMax + 1 / 1000000)).foldl
    (fun out edgeIdx =>
      match p.edges.get? edgeIdx with
      | none => out
      | some ed =>
        let shapeId := eshape ed.1
        let edgeIntercepts := eintercepts ed.1 ys
        out.enum.map fun b =>
          if b.1 < ys.length then
            b.2 ++ (edgeIntercepts.getD b.1 []).map (fun ip => ⟨shapeId, ip.1, ip.2⟩)
          else
            b.2)
    cleared
  filled.map fun bucket => bucket.insertionSort (fun a b => a.xPos ≤ b.xPos)

/-- The x-position order used when sorting intercepts is total. -/
instance : IsTotal EdgeIntercept (fun a b => a.xPos ≤ b.xPos) :=
  ⟨fun a b => le_total a.xPos b.xPos⟩

/-- The x-position order used when sorting intercepts is transitive. -/
instance : IsTrans EdgeIntercept (fun a b => a.xPos ≤ b.xPos) :=
  ⟨fun _ _ _ h1 h2 => le_trans h1 h2⟩

/-! ## `edges/line_stroke_edge.rs`

`LineStrokeEdge` (and `FlattenedLineStrokeEdge`, whose `intercepts` body is
verbatim the same) delegates to the prepared list of stroked sub-paths
(`bezier_path`).  The sub-path edge type is abstract (`B`) and its intercept
behaviour is the function `f`, giving the intercepts of a sub-path at one
y-position.
-/

/-- Modelled from the spec: `BezierSubpathNonZeroEdge::intercepts` (the
bezier sub-path edge source is not under src/); per the spec the method
overwrites: each output slot `i` receives exactly the intercepts of the edge
at `ys[i]`, regardless of its prior content. -/
def subpathIntercepts (f : B → ℚ → List (Direction × ℚ)) (p : B) (ys : List ℚ)
    (out : List (List (Direction × ℚ))) : List (List (Direction × ℚ)) :=
  out.enum.map fun s => if h : s.1 < ys.length then f p (ys.get ⟨s.1, h⟩) else s.2

/-- `LineStrokeEdge::intercepts`: with no prepared sub-paths the output is
left untouched; with one sub-path the call is forwarded; with several, the
first sub-path writes the output, the others are collected through a
temporary buffer and appended, and every slot is finally sorted by x
position. -/
def lineStrokeIntercepts (f : B → ℚ → List (Direction × ℚ)) (bezierPath : List B)
    (ys : List ℚ) (out : List (List (Direction × ℚ))) : List (List (Direction × ℚ)) :=
  match bezierPath with
  | [] => out
  | [p] => subpathIntercepts f p ys out
  | p :: rest =>
    let filled := rest.foldl
      (fun acc path =>
        acc.enum.map fun s =>
          s.2 ++ (if h : s.1 < ys.length then f path (ys.get ⟨s.1, h⟩) else []))
      (subpathIntercepts f p ys out)
    filled.map fun slot => slot.insertionSort (fun a b => a.2 ≤ b.2)

/-! ## `filters/alpha_blend_filter.rs` and `filters/mask_filter.rs`

The pixel type is abstract (`P`); multiplying a pixel by an alpha component
(`TPixel::Component::with_value(v)` followed by `*`) is the function
`pmul : P → ℚ → P`.
-/

/-- The fractional part of a (modelled) `f64`: `x.fract()` for `x ≥ 0`. -/
def fract (x : ℚ) : ℚ := x - ⌊x⌋

/-- `f64` remainder `a % b` for `a ≥ 0, b > 0` (the only case the source
exercises): `a - b * ⌊a / b⌋`. -/
def fmod (a b : ℚ) : ℚ := a - b * ⌊a / b⌋

/-- A pixel of a `U16LinearTexture`; only the alpha channel is read by the
mask filter. -/
structure U16LinearPixel where
  r : Nat
  g : Nat
  b : Nat
  a : Nat
deriving DecidableEq, Repr

/-- Modelled from the spec: `U16LinearTexture` (its source is not under
src/) stores a width x height grid of 16-bit linear pixels, addressable one
line at a time. -/
structure U16LinearTexture where
  width : Nat
  height : Nat
  lines : List (List U16LinearPixel)
deriving DecidableEq, Repr

/-- Modelled from the spec: `U16LinearTexture::pixel_line` returns line `y`
when it exists (the mask filter treats a missing line as out of range). -/
def U16LinearTexture.pixelLine (t : U16LinearTexture) (y : Nat) : Option (List U16LinearPixel) :=
  t.lines.get? y

/-- Modelled from the spec: `U16LinearTexture::from_pixels` builds a texture
from a flat row-major list of 16-bit channel values, four per pixel. -/
def U16LinearTexture.fromPixels (w h : Nat) (pixels : List Nat) : U16LinearTexture :=
  { width := w
    height := h
    lines := chunksExact w ((chunksExact 4 pixels).map fun px =>
      ⟨px.getD 0 0, px.getD 1 0, px.getD 2 0, px.getD 3 0⟩) }

/-- `MaskFilter`: the mask texture and the x/y multipliers. -/
structure MaskFilter where
  mask : U16LinearTexture
  multX : ℚ
  multY : ℚ
deriving DecidableEq

/-- `MaskFilter::read_px`: bilinear read of the alpha channel at `xpos`
along the two mask lines, with a 16-bit fixed-point fraction in x (derived
from `mult_x`) and the given 16-bit fixed-point fraction in y.  The `u16`
and `u32` arithmetic never overflows, so plain naturals model it exactly. -/
def readPx (multX : ℚ) (xpos : Nat) (line1 line2 : List U16LinearPixel)
    (yposFract : Nat) : Nat :=
  let x : ℚ := (xpos : ℚ) * multX
  let x := fmod |x| (line1.length : ℚ)
  let xposFract : Nat := (⌊fract x * 65535⌋).toNat
  let xi : Nat := (⌊x⌋).toNat
  let xi1 : Nat := (xi + 1) % line1.length
  let a1 := (line1.getD xi ⟨0, 0, 0, 0⟩).a
  let a2 := (line1.getD xi1 ⟨0, 0, 0, 0⟩).a
  let a3 := (line2.getD xi ⟨0, 0, 0, 0⟩).a
  let a4 := (line2.getD xi ⟨0, 0, 0, 0⟩).a
  let a12 := a2 * xposFract / 65536 + a1 * (65535 - xposFract) / 65536
  let a34 := a4 * xposFract / 65536 + a3 * (65535 - xposFract) / 65536
  a34 * yposFract / 65536 + a12 * (65535 - yposFract) / 65536

/-- The mask line index read by `MaskFilter::filter_line` at `y_pos`:
`(y_pos as f64 * mult_y).abs() as usize`. -/
def maskYIndex (multY : ℚ) (yPos : Nat) : Nat := (⌊|(yPos : ℚ) * multY|⌋).toNat

/-- The 16-bit fixed-point y fraction used by `MaskFilter::filter_line`:
`(mask_y.abs().fract() * 65535.0) as u32`. -/
def maskYFract32 (multY : ℚ) (yPos : Nat) : Nat :=
  (⌊fract |(yPos : ℚ) * multY| * 65535⌋).toNat

/-- `MaskFilter::filter_line`: reads the two mask lines bracketing the
mapped y position; when both exist, each output pixel paired with an input
pixel is overwritten with the input multiplied by the bilinearly sampled
mask alpha; when either line is missing, the function returns without
writing anything. -/
def MaskFilter.filterLine (pmul : P → ℚ → P) (flt : MaskFilter) (yPos : Nat)
    (inputLines : List (List P)) (outputLine : List P) : List P :=
  let maskY := maskYIndex flt.multY yPos
  let yFract := maskYFract32 flt.multY yPos
  match flt.mask.pixelLine maskY, flt.mask.pixelLine (maskY + 1) with
  | some line1, some line2 =>
    zipWriteIdx
      (fun xPos px => pmul px ((readPx flt.multX xPos line1 line2 yFract : ℚ) / 65535))
      0 (inputLines.getD 0 []) outputLine
  | _, _ => outputLine

/-- `AlphaBlendFilter::filter_line`: each output pixel paired with an input
pixel is overwritten with the input multiplied by the stored alpha. -/
def alphaBlendFilterLine (pmul : P → ℚ → P) (alpha : ℚ)
    (inputLines : List (List P)) (outputLine : List P) : List P :=
  zipWriteIdx (fun _ px => pmul px alpha) 0 (inputLines.getD 0 []) outputLine

/-! ## `filters/combined_filter.rs`

A component filter is a record of its `input_lines`, `extra_columns` and
`filter_line` behaviours.
-/

/-- A `PixelFilter` trait object as seen by `CombinedFilter`. -/
structure PFilter (P : Type) where
  inputLines : Nat × Nat
  extraColumns : Nat × Nat
  filterLine : Nat → List (List P) → List P → List P

/-- `CombinedFilter::input_lines`: the componentwise sum over the chained
filters. -/
def combinedInputLines (fs : List (PFilter P)) : Nat × Nat :=
  fs.foldl (fun acc f => (f.inputLines.1 + acc.1, f.inputLines.2 + acc.2)) (0, 0)

/-- `CombinedFilter::extra_columns`: the componentwise sum over the chained
filters. -/
def combinedExtraColumns (fs : List (PFilter P)) : Nat × Nat :=
  fs.foldl (fun acc f => (f.extraColumns.1 + acc.1, f.extraColumns.2 + acc.2)) (0, 0)

/-- One iteration of the middle-filter loop of `CombinedFilter::filter_line`:
filters every line of the current input into the output buffer rows, shrinks
the width and height by the extra columns and input lines of the filter,
swaps the two buffers, and regenerates the input line references.  The state
is `((width, height), (output, nextOutput, nextInput))`. -/
def combinedStep (yPos : Nat)
    (st : (Nat × Nat) × (List (List P) × List (List P) × List (List P)))
    (f : PFilter P) : (Nat × Nat) × (List (List P) × List (List P) × List (List P)) :=
  let width := st.1.1
  let height := st.1.2
  let output := st.2.1
  let nextOutput := st.2.2.1
  let nextInput := st.2.2.2
  let l := f.extraColumns.1
  let r := f.extraColumns.2
  let t := f.inputLines.1
  let b := f.inputLines.2
  let written := (List.range output.length).map fun ol =>
    if ol < height - b - t then
      let row := output.getD ol []
      f.filterLine (yPos + ol) ((nextInput.drop ol).take (1 + t + b))
          (row.take (width - l - r)) ++ row.drop (width - l - r)
    else
      output.getD ol []
  let width2 := width - (l + r)
  let height2 := height - (t + b)
  ((width2, height2),
    (nextOutput, written, (List.range height2).map fun idx => (written.getD idx []).take width2))

/-- `CombinedFilter::filter_line`: with no filters, copies the first input
line over the output (pairwise, via the zip of the two); with one filter,
forwards the call; with several, runs all but the last through intermediate
buffers and lets the last write the output line. -/
def combinedFilterLine (d : P) (fs : List (PFilter P)) (yPos : Nat)
    (inputLines : List (List P)) (outputLine : List P) : List P :=
  match fs with
  | [] => zipWriteIdx (fun _ v => v) 0 (inputLines.getD 0 []) outputLine
  | [f] => f.filterLine yPos inputLines outputLine
  | f0 :: f1 :: rest =>
    let fs := f0 :: f1 :: rest
    let width := (inputLines.getD 0 []).length
    let height := inputLines.length
    let output := List.replicate (height - f0.inputLines.1 - f0.inputLines.2)
      (List.replicate (width - f0.extraColumns.1 - f0.extraColumns.2) d)
    let st := fs.dropLast.foldl (combinedStep yPos) ((width, height), (output, output, inputLines))
    match fs.getLast? with
    | some lastf => lastf.filterLine yPos (st.2.2.2.take st.1.2) outputLine
    | none => outputLine

/-! ## `draw/sprite.rs`

The drawing state is reduced to the parts the settled claim observes: the
sprite table, the layer table, the prepared-layer cache and the current
namespace and layer.  The layer payload type `L` is abstract.
-/

/-- Association-list lookup for the `HashMap` / `SparseArray` tables keyed by
`(namespace, id)`. -/
def lookupPair (table : List ((Nat × Nat) × A)) (key : Nat × Nat) : Option A :=
  (table.find? fun e => e.1 == key).map (·.2)

/-- The reduced `CanvasDrawing` state. -/
structure CanvasDrawing (L : Type) where
  sprites : List ((Nat × Nat) × Nat)
  layers : List (Nat × L)
  preparedLayers : List (Nat × L)
  currentLayer : Nat
  currentNamespace : Nat
deriving DecidableEq

/-- `CanvasDrawing::sprite_draw`.  The present-sprite branch (lines 419-519
of `draw/sprite.rs`: preparing the sprite layer, computing the transformed
footprint in `f32`, storing program data and inserting the sprite shape) is
abstracted as `drawPrepared`; the claim settled here concerns the
missing-sprite branch, whose body does nothing at all. -/
def spriteDraw (drawPrepared : Nat → CanvasDrawing L → CanvasDrawing L)
    (s : CanvasDrawing L) (spriteId : Nat) : CanvasDrawing L :=
  match lookupPair s.sprites (s.currentNamespace, spriteId) with
  | none => s
  | some spriteLayerHandle => drawPrepared spriteLayerHandle s

/-- Modelled from the spec: the mip-map texture produced by
`Texture::make_mip_map` (texture storage is not under src/); only its level-0
`U16LinearTexture` is read here. -/
structure MipTexture where
  level0 : U16LinearTexture

/-- `TexturePixels`: the texture storage variants named by the spec. -/
inductive TexturePixels where
  | empty (w h : Nat)
  | rgba (data : List Nat)
  | linear (data : List Nat)
  | mipMap (m : MipTexture)
  | mipMapWithOriginal (original : List Nat) (m : MipTexture)
  | dynamicSprite (layer : Nat)

/-- A texture table entry. -/
structure Texture where
  pixels : TexturePixels

/-- The 1x1 fully transparent texture used in place of a missing mask or
displacement texture: `U16LinearTexture::from_pixels(1, 1, vec![0, 0, 0, 0])`. -/
def transparent1x1 : U16LinearTexture := U16LinearTexture.fromPixels 1 1 [0, 0, 0, 0]

/-- The texture-selection loop shared verbatim by
`CanvasDrawing::sprite_mask_filter` and
`CanvasDrawing::sprite_displacement_filter`: a missing texture or an `Empty`
texture yields the 1x1 transparent texture; `Rgba`/`Linear` textures are
converted to a mip-map (`make_mip_map`, not under src/, is the function
`makeMip`) and the loop retries, which then takes mip level 0; a dynamic
sprite is rasterised (`getDynamic`). -/
def u16TextureFor (makeMip : TexturePixels → MipTexture) (getDynamic : Nat → U16LinearTexture)
    (textures : List ((Nat × Nat) × Texture)) (ns tid : Nat) : U16LinearTexture :=
  match lookupPair textures (ns, tid) with
  | none => transparent1x1
  | some tex =>
    match tex.pixels with
    | .empty _ _ => transparent1x1
    | .rgba data => (makeMip (.rgba data)).level0
    | .linear data => (makeMip (.linear data)).level0
    | .mipMap m => m.level0
    | .mipMapWithOriginal _ m => m.level0
    | .dynamicSprite layer => getDynamic layer

/-- `CanvasDrawing::sprite_mask_filter`: selects the mask texture and builds
the `MaskFilter` with multipliers mask-size over target-size. -/
def spriteMaskFilter (makeMip : TexturePixels → MipTexture)
    (getDynamic : Nat → U16LinearTexture) (textures : List ((Nat × Nat) × Texture))
    (ns tid : Nat) (width height : ℚ) : MaskFilter :=
  let maskTexture := u16TextureFor makeMip getDynamic textures ns tid
  { mask := maskTexture
    multX := (maskTexture.width : ℚ) / width
    multY := (maskTexture.height : ℚ) / height }

/-- `DisplacementMapFilter` as constructed by
`CanvasDrawing::sprite_displacement_filter` (the filter body itself is not a
subject of the settled claims). -/
structure DisplacementMapFilter where
  map : U16LinearTexture
  xOffset : ℚ
  yOffset : ℚ
  multX : ℚ
  multY : ℚ
  gamma : ℚ

/-- `CanvasDrawing::sprite_displacement_filter`: selects the displacement
texture with the same loop and builds the filter with the scaled offsets and
the size-ratio multipliers. -/
def spriteDisplacementFilter (makeMip : TexturePixels → MipTexture)
    (getDynamic : Nat → U16LinearTexture) (textures : List ((Nat × Nat) × Texture))
    (ns tid : Nat) (xOffset yOffset width height scaleX scaleY gamma : ℚ) :
    DisplacementMapFilter :=
  let displacementTexture := u16TextureFor makeMip getDynamic textures ns tid
  { map := displacementTexture
    xOffset := xOffset * scaleX
    yOffset := yOffset * scaleY
    multX := (displacementTexture.width : ℚ) / width
    multY := (displacementTexture.height : ℚ) / height
    gamma := gamma }

/-! ## `pixel_program_cache.rs`

`A` is the type of the stored per-data closures (the result of the
associator), `S` the type of the scanline-data closures, `Data` the program
data type.
-/

/-- `PixelProgramDataCache`: the per-frame store of program data and
scanline data. -/
structure PixelProgramDataCache (A S : Type) where
  programData : List A
  scanlineData : List S
deriving DecidableEq

/-- `StoredPixelProgram`: the assigned program id and the associator
closure. -/
structure StoredPixelProgram (Data A : Type) where
  programId : Nat
  associateProgramData : Data → A

/-- `PixelProgramCache::create_data_cache`: the fresh empty cache. -/
def createDataCache : PixelProgramDataCache A S := ⟨[], []⟩

/-- `PixelProgramCache::store_program_data`: assigns the next dense id (the
current length of the data store), pushes the associated closure, and
returns the id. -/
def storeProgramData (stored : StoredPixelProgram Data A)
    (cache : PixelProgramDataCache A S) (data : Data) :
    PixelProgramDataCache A S × Nat :=
  ({ cache with programData := cache.programData ++ [stored.associateProgramData data] },
    cache.programData.length)

/-- A sequence of `store_program_data` calls, each with its own stored
program and data, applied in order; returns the final cache and the list of
returned ids. -/
def storeManyProgramData (calls : List (StoredPixelProgram Data A × Data))
    (cache : PixelProgramDataCache A S) :
    PixelProgramDataCache A S × List Nat :=
  calls.foldl
    (fun acc call =>
      let next := storeProgramData call.1 acc.1 call.2
      (next.1, acc.2 ++ [next.2]))
    (cache, [])

/-! ## `render/u8_frame_renderer.rs`

The internal pixel type `P`, the 8-bit output pixel type `U`, the gamma
conversion `toU8` (`Pixel::to_u8_rgba`, not a subject of the claim) and the
region renderer are abstract.  A panic is modelled as `Except.error` carrying
the destination as it stood when the panic fired.
-/

/-- The strip loop of `U8FrameRenderer::render`: renders `LINES_AT_ONCE = 8`
lines at a time into the re-used internal buffer and converts each rendered
line to the output format; returns the converted rows for `y = yIdx` up to
`height`.  Structurally recursive on a fuel bound (each iteration advances
`yIdx` by at least one, so `height` is enough fuel). -/
def renderStripsGo (d : P) (toU8 : P → U) (regionRenderer : List ℚ → List (List P) → List (List P))
    (width height : Nat) : Nat → Nat → List (List P) → List (List U)
  | 0, _, _ => []
  | fuel + 1, yIdx, buffer =>
    if height ≤ yIdx then
      []
    else
      let endIdx := min (yIdx + 8) height
      let yPositions := (List.range' yIdx (endIdx - yIdx)).map (fun i => (i : ℚ))
      let buffer2 := regionRenderer yPositions buffer
      let rows := (List.range (endIdx - yIdx)).map fun i =>
        (List.range width).map fun x => toU8 ((buffer2.getD i []).getD x d)
      rows ++ renderStripsGo d toU8 regionRenderer width height fuel endIdx buffer2

/-- `U8FrameRenderer::render`: splits the destination into exact rows of
`width` pixels, panics when fewer than `height` rows fit (before anything is
written), and otherwise overwrites the first `height` rows with the
converted rendered pixels, leaving the rest of the destination unchanged. -/
def u8FrameRender (d : P) (toU8 : P → U)
    (regionRenderer : List ℚ → List (List P) → List (List P))
    (width height : Nat) (dest : List U) : Except (List U) (List U) :=
  let chunks := chunksExact width dest
  if chunks.length < height then
    Except.error dest
  else
    let buffer := chunksExact width (List.replicate (width * 8) d)
    let rendered := renderStripsGo d toU8 regionRenderer width height height 0 buffer
    Except.ok (rendered.flatten ++ dest.drop (width * height))

end FloDraw

namespace FloDraw

/-! ## Theorems about `BufferStack` -/

/-- C10: `pop_entry` on a `BufferStack` whose pushed stack is empty is a
no-op: the blend callback is never invoked (the result does not depend on it)
and the base buffer, the stack and the ready pool are all unchanged. -/
theorem popEntry_empty_stack_noop {P : Type} (f : List P → List P → List P)
    (s : BufferStack P) (h : s.stack = []) :
    BufferStack.popEntry f s = s := by
  unfold BufferStack.popEntry
  rw [h]

/-- Witness for C10 at a concrete state. -/
theorem popEntry_empty_stack_noop_witness :
    (⟨[1, 2], [], [[0, 0]]⟩ : BufferStack Nat).stack = [] ∧
      BufferStack.popEntry (fun _ b => b.map (· + 1)) ⟨[1, 2], [], [[0, 0]]⟩ =
        ⟨[1, 2], [], [[0, 0]]⟩ :=
  ⟨rfl, popEntry_empty_stack_noop _ _ rfl⟩

/-- C3 (counterexample): the claim fails for an arbitrary blend callback.
`pop_entry` hands the callback the *whole* removed buffer and the *whole*
lower buffer, so a callback may change the lower buffer at indices outside
the pushed range.  Here the range `0..0` is empty (index `0` is outside it),
yet after `push_entry(0..0); pop_entry(f)` with `f` writing `[9]` the top
buffer holds `9` where it held `5` before the push. -/
theorem pushPop_outside_range_counterexample :
    (0 < (0 : Nat) ∨ (0 : Nat) ≤ 0) ∧
      ((BufferStack.popEntry (fun _ _ => [9])
            (BufferStack.pushEntry 0 0 0 (⟨[5], [], []⟩ : BufferStack Nat))).buffer).getD 0 0 ≠
        ((⟨[5], [], []⟩ : BufferStack Nat).buffer).getD 0 0 := by
  decide

/-- C3 (amended): for every blend callback that preserves the length of the
lower buffer and changes it only at indices inside the pushed range
`lo..hi`, the top buffer after `push_entry(lo..hi); pop_entry(f)` is
bit-identical, at every index outside `lo..hi`, to its content just before
the push (same length, same element at every outside index). -/
theorem pushPop_preserves_outside_range {P : Type} (d : P) (lo hi : Nat)
    (s : BufferStack P) (f : List P → List P → List P)
    (hlen : ∀ removed below, (f removed below).length = below.length)
    (hf : ∀ removed below i, i < lo ∨ hi ≤ i → (f removed below).getD i d = below.getD i d)
    (i : Nat) (hout : i < lo ∨ hi ≤ i) :
    ((BufferStack.popEntry f (BufferStack.pushEntry d lo hi s)).buffer).length
        = (s.buffer).length ∧
      ((BufferStack.popEntry f (BufferStack.pushEntry d lo hi s)).buffer).getD i d
        = (s.buffer).getD i d := by
  rcases s with ⟨first, stack, ready⟩
  rcases ready with _ | ⟨r0, readyRest⟩ <;> rcases stack with _ | ⟨top, stackRest⟩ <;>
    simp only [BufferStack.pushEntry, BufferStack.popEntry, BufferStack.buffer] <;>
    exact ⟨hlen _ _, hf _ _ i hout⟩

/-- Witness for C3 (amended), instantiated with the identity blend callback. -/
theorem pushPop_preserves_outside_range_witness :
    ((BufferStack.popEntry (fun _ b => b)
          (BufferStack.pushEntry 0 1 1 (⟨[3, 4], [], []⟩ : BufferStack Nat))).buffer).length
        = ((⟨[3, 4], [], []⟩ : BufferStack Nat).buffer).length ∧
      ((BufferStack.popEntry (fun _ b => b)
            (BufferStack.pushEntry 0 1 1 (⟨[3, 4], [], []⟩ : BufferStack Nat))).buffer).getD 0 0
        = ((⟨[3, 4], [], []⟩ : BufferStack Nat).buffer).getD 0 0 :=
  pushPop_preserves_outside_range 0 1 1 ⟨[3, 4], [], []⟩ (fun _ b => b)
    (fun _ _ => rfl) (fun _ _ _ _ => rfl) 0 (Or.inl Nat.one_pos)

/-! ## Theorems about `EdgePlan` -/

/-- C1: on a prepared `EdgePlan`, every output bucket produced by
`intercepts_on_scanlines` is sorted ascending by x position under the total
order on x, for every list of y-positions, every prior output content, and
every edge behaviour. -/
theorem interceptsOnScanlines_sorted {E : Type} (eprepare : E → E)
    (eboundingBox : E → (ℚ × ℚ) × (ℚ × ℚ)) (eshape : E → Nat)
    (eintercepts : E → List ℚ → List (List (Direction × ℚ)))
    (p : EdgePlan E) (ys : List ℚ) (output : List (List EdgeIntercept))
    (bucket : List EdgeIntercept)
    (hb : bucket ∈ (p.prepareToRender eprepare eboundingBox).interceptsOnScanlines
        eshape eintercepts ys output) :
    bucket.Sorted (fun a b => a.xPos ≤ b.xPos) := by
  simp only [EdgePlan.interceptsOnScanlines, List.mem_map] at hb
  obtain ⟨raw, _, rfl⟩ := hb
  exact List.sorted_insertionSort _ raw

/-- Witness for C1 at a concrete prepared plan and output bucket. -/
theorem interceptsOnScanlines_sorted_witness :
    ([] : List EdgeIntercept).Sorted (fun a b => a.xPos ≤ b.xPos) :=
  interceptsOnScanlines_sorted (E := Unit) (fun e => e)
    (fun _ => ((0, 0), (0, 5))) (fun _ => 7)
    (fun _ ys => ys.map (fun _ => [(Direction.up, 3), (Direction.up, 1)]))
    EdgePlan.new [] [[]] [] (by decide)

/-- C4: `prepare_to_render` is idempotent: a second call (with no edges added
in between) leaves the plan exactly as the first call left it — same edges,
same cached y-bounds, same spatial index, same high-water mark. -/
theorem prepareToRender_idempotent {E : Type} (eprepare : E → E)
    (eboundingBox : E → (ℚ × ℚ) × (ℚ × ℚ)) (p : EdgePlan E) :
    (p.prepareToRender eprepare eboundingBox).prepareToRender eprepare eboundingBox
      = p.prepareToRender eprepare eboundingBox := by
  by_cases h : p.maxPrepared = p.edges.length
  · simp [EdgePlan.prepareToRender, h]
  · conv_lhs => rw [EdgePlan.prepareToRender]
    simp [EdgePlan.prepareToRender, h]

/-! ## Theorems about `LineStrokeEdge::intercepts` -/

/-- C2 (the code at the failing input): an edge whose prepared `bezier_path`
is empty — so it has no intercepts anywhere — leaves a stale intercept
sitting in the output slot instead of overwriting it with the empty list,
although the callers rely on `intercepts` overwriting any old values. -/
theorem lineStrokeIntercepts_no_subpaths_keeps_stale :
    lineStrokeIntercepts (B := Unit) (fun _ _ => []) [] [0] [[(Direction.up, 1)]]
        = [[(Direction.up, 1)]] ∧
      ([[(Direction.up, 1)]] : List (List (Direction × ℚ))) ≠ [[]] :=
  ⟨rfl, by simp⟩

/-! ## Theorems about the pixel-program data cache -/

/-- The fold inside `storeManyProgramData`, generalized over the starting
cache and the accumulated id list. -/
theorem storeManyProgramData_aux {Data A S : Type}
    (calls : List (StoredPixelProgram Data A × Data)) :
    ∀ (cache : PixelProgramDataCache A S) (acc : List Nat),
      (calls.foldl
        (fun acc call =>
          let next := storeProgramData call.1 acc.1 call.2
          (next.1, acc.2 ++ [next.2]))
        (cache, acc)).2
      = acc ++ (List.range calls.length).map (· + cache.programData.length) := by
  induction calls with
  | nil => intro cache acc; simp
  | cons c cs ih =>
    intro cache acc
    simp only [List.foldl_cons]
    rw [ih]
    simp only [storeProgramData, List.length_append, List.length_cons,
      List.length_nil, List.length_singleton, List.range_succ_eq_map, List.map_cons,
      List.map_map, List.append_assoc, List.singleton_append, Nat.zero_add]
    congr 2
    refine List.map_congr_left fun i _ => ?_
    simp [Function.comp]
    omega

/-- C8: on a fresh `PixelProgramDataCache`, a sequence of
`store_program_data` calls returns the dense consecutive identifiers
`0, 1, 2, ...` in call order (the k-th call returns id k-1), regardless of
which stored program each call uses. -/
theorem storeProgramData_dense_ids {Data A S : Type}
    (calls : List (StoredPixelProgram Data A × Data)) :
    (storeManyProgramData (S := S) calls createDataCache).2 = List.range calls.length := by
  unfold storeManyProgramData
  rw [storeManyProgramData_aux]
  simp [createDataCache]

/-! ## Theorems about the filters -/

/-- Copying through the zip of equal-length lists yields the source list. -/
theorem zipWriteIdx_copy_eq {P : Type} (vs : List P) :
    ∀ (out : List P) (i : Nat), vs.length = out.length →
      zipWriteIdx (fun _ v => v) i vs out = vs := by
  induction vs with
  | nil =>
    intro out i h
    cases out with
    | nil => rfl
    | cons o os => simp at h
  | cons v vs ih =>
    intro out i h
    cases out with
    | nil => simp at h
    | cons o os =>
      simp only [zipWriteIdx]
      rw [ih os (i + 1) (by simpa using h)]

/-- C6: a `CombinedFilter` built from the empty filter list is the identity:
`filter_line` copies the first input line to the output unchanged (for
matching widths), it requests zero extra input lines and zero extra
columns. -/
theorem combinedFilter_empty_identity {P : Type} (d : P) (yPos : Nat)
    (inputLines : List (List P)) (outputLine : List P)
    (h : (inputLines.getD 0 []).length = outputLine.length) :
    combinedFilterLine d [] yPos inputLines outputLine = inputLines.getD 0 [] ∧
      combinedInputLines ([] : List (PFilter P)) = (0, 0) ∧
      combinedExtraColumns ([] : List (PFilter P)) = (0, 0) :=
  ⟨zipWriteIdx_copy_eq _ _ 0 h, rfl, rfl⟩

/-- Witness for C6 at a concrete input line. -/
theorem combinedFilter_empty_identity_witness :
    combinedFilterLine 0 [] 0 [[1, 2]] [9, 9] = [1, 2] ∧
      combinedInputLines ([] : List (PFilter Nat)) = (0, 0) ∧
      combinedExtraColumns ([] : List (PFilter Nat)) = (0, 0) :=
  combinedFilter_empty_identity 0 0 [[1, 2]] [9, 9] rfl

/-- Writing through the zip preserves the output length. -/
theorem zipWriteIdx_length (g : Nat → α → β) :
    ∀ (i : Nat) (vs : List α) (out : List β),
      (zipWriteIdx g i vs out).length = out.length := by
  intro i vs out
  induction out generalizing i vs with
  | nil => cases vs <;> rfl
  | cons o os ih =>
    cases vs with
    | nil => rfl
    | cons v vs' => simp [zipWriteIdx, ih]

/-- While both lists last, element `j` of the written output is the image of
input element `j`, independent of the prior output content. -/
theorem zipWriteIdx_get (g : Nat → α → β) :
    ∀ (i j : Nat) (vs : List α) (out : List β), j < out.length → j < vs.length →
      (zipWriteIdx g i vs out).get? j = (vs.get? j).map fun v => g (i + j) v := by
  intro i j vs out
  induction out generalizing i j vs with
  | nil => intro h _; simp at h
  | cons o os ih =>
    intro h hv
    cases vs with
    | nil => simp at hv
    | cons v vs' =>
      cases j with
      | zero => simp [zipWriteIdx]
      | succ j' =>
        simp only [zipWriteIdx, List.get?_cons_succ, List.length_cons] at h hv ⊢
        rw [ih (i + 1) j' vs' (by omega) (by omega)]
        congr 1
        funext v
        congr 1
        omega

/-- C5 (counterexample): `MaskFilter::filter_line` writes nothing at all
when the mapped mask line (or the one after it) does not exist — here a
1-line mask queried at `y = 0` needs lines 0 and 1 — so the prior output
content survives; and `AlphaBlendFilter::filter_line` leaves output pixels
beyond the input length unwritten. -/
theorem filterLine_skips_write_counterexample :
    MaskFilter.filterLine (fun (p : ℚ) a => p * a)
        ⟨⟨1, 1, [[⟨0, 0, 0, 65535⟩]]⟩, 1, 1⟩ 0 [[1]] [7] = [7] ∧
      MaskFilter.filterLine (fun (p : ℚ) a => p * a)
        ⟨⟨1, 1, [[⟨0, 0, 0, 65535⟩]]⟩, 1, 1⟩ 0 [[1]] [8] = [8] ∧
      (7 : ℚ) ≠ 8 ∧
      alphaBlendFilterLine (fun (p : ℚ) a => p * a) (1 / 2) [[]] [7] = [7] := by
  have hidx : maskYIndex 1 0 = 0 := by simp [maskYIndex]
  refine ⟨?_, ?_, by norm_num, rfl⟩ <;>
    simp [MaskFilter.filterLine, hidx, U16LinearTexture.pixelLine]

/-- C5 (amended): `filter_line` overwrites exactly the output pixels that
are paired with an input pixel — every pixel of `out_line` when the first
input line is at least as long — with a value independent of the prior
output content; for `MaskFilter` this holds provided both mask lines
bracketing the mapped y position exist (otherwise it writes nothing, as the
counterexample shows), and for `AlphaBlendFilter` unconditionally. -/
theorem filterLine_writes_every_pixel {P : Type} (pmul : P → ℚ → P) (alpha : ℚ)
    (flt : MaskFilter) (yPos : Nat) (inputLines : List (List P)) (outputLine : List P)
    (line1 line2 : List U16LinearPixel)
    (h1 : flt.mask.pixelLine (maskYIndex flt.multY yPos) = some line1)
    (h2 : flt.mask.pixelLine (maskYIndex flt.multY yPos + 1) = some line2)
    (hlen : outputLine.length ≤ (inputLines.getD 0 []).length) :
    (MaskFilter.filterLine pmul flt yPos inputLines outputLine).length
        = outputLine.length ∧
      (∀ j, j < outputLine.length →
        (MaskFilter.filterLine pmul flt yPos inputLines outputLine).get? j
          = ((inputLines.getD 0 []).get? j).map fun px =>
              pmul px ((readPx flt.multX j line1 line2 (maskYFract32 flt.multY yPos) : ℚ)
                / 65535)) ∧
      (alphaBlendFilterLine pmul alpha inputLines outputLine).length
        = outputLine.length ∧
      (∀ j, j < outputLine.length →
        (alphaBlendFilterLine pmul alpha inputLines outputLine).get? j
          = ((inputLines.getD 0 []).get? j).map fun px => pmul px alpha) := by
  have hmask : MaskFilter.filterLine pmul flt yPos inputLines outputLine
      = zipWriteIdx
          (fun xPos px =>
            pmul px ((readPx flt.multX xPos line1 line2 (maskYFract32 flt.multY yPos) : ℚ)
              / 65535))
          0 (inputLines.getD 0 []) outputLine := by
    unfold MaskFilter.filterLine
    simp only [h1, h2]
  refine ⟨?_, ?_, ?_, ?_⟩
  · rw [hmask]; exact zipWriteIdx_length _ _ _ _
  · intro j hj
    rw [hmask, zipWriteIdx_get _ _ _ _ _ hj (by omega)]
    simp
  · exact zipWriteIdx_length _ _ _ _
  · intro j hj
    rw [alphaBlendFilterLine, zipWriteIdx_get _ _ _ _ _ hj (by omega)]

/-- Witness for C5 (amended) at a concrete mask filter with both lines
present. -/
theorem filterLine_writes_every_pixel_witness :
    (MaskFilter.filterLine (fun (p : ℚ) a => p * a)
        ⟨⟨1, 2, [[⟨0, 0, 0, 0⟩], [⟨0, 0, 0, 0⟩]]⟩, 0, 0⟩ 0 [[1]] [7]).length = 1 ∧
      (∀ j, j < ([7] : List ℚ).length →
        (MaskFilter.filterLine (fun (p : ℚ) a => p * a)
            ⟨⟨1, 2, [[⟨0, 0, 0, 0⟩], [⟨0, 0, 0, 0⟩]]⟩, 0, 0⟩ 0 [[1]] [7]).get? j
          = Option.map
              (fun px =>
                px * ((readPx 0 j [⟨0, 0, 0, 0⟩] [⟨0, 0, 0, 0⟩] (maskYFract32 0 0) : ℚ)
                  / 65535))
              ((([[1]] : List (List ℚ)).getD 0 []).get? j)) ∧
      (alphaBlendFilterLine (fun (p : ℚ) a => p * a) (1 / 2) [[1]] [7]).length = 1 ∧
      (∀ j, j < ([7] : List ℚ).length →
        (alphaBlendFilterLine (fun (p : ℚ) a => p * a) (1 / 2) [[1]] [7]).get? j
          = Option.map (fun px => px * (1 / 2))
              ((([[1]] : List (List ℚ)).getD 0 []).get? j)) :=
  filterLine_writes_every_pixel (fun (p : ℚ) a => p * a) (1 / 2)
    ⟨⟨1, 2, [[⟨0, 0, 0, 0⟩], [⟨0, 0, 0, 0⟩]]⟩, 0, 0⟩ 0 [[1]] [7]
    [⟨0, 0, 0, 0⟩] [⟨0, 0, 0, 0⟩]
    (by simp [maskYIndex, U16LinearTexture.pixelLine])
    (by simp [maskYIndex, U16LinearTexture.pixelLine])
    (by decide)

/-! ## Theorems about `draw/sprite.rs` -/

/-- C7: drawing with a missing resource never aborts and degrades
gracefully: `sprite_draw` with a sprite id absent from the sprite table for
the current namespace leaves the drawing state unchanged (so no shape or
edge is added and no z-index advances), and building a mask or displacement
filter for a texture id absent from the texture table uses the 1x1
transparent texture. -/
theorem missing_resources_degrade {L : Type}
    (drawPrepared : Nat → CanvasDrawing L → CanvasDrawing L) (s : CanvasDrawing L)
    (spriteId : Nat) (makeMip : TexturePixels → MipTexture)
    (getDynamic : Nat → U16LinearTexture) (textures : List ((Nat × Nat) × Texture))
    (ns tid : Nat) (width height xOffset yOffset scaleX scaleY gamma : ℚ)
    (hs : lookupPair s.sprites (s.currentNamespace, spriteId) = none)
    (ht : lookupPair textures (ns, tid) = none) :
    spriteDraw drawPrepared s spriteId = s ∧
      (spriteMaskFilter makeMip getDynamic textures ns tid width height).mask
        = transparent1x1 ∧
      (spriteDisplacementFilter makeMip getDynamic textures ns tid xOffset yOffset
          width height scaleX scaleY gamma).map = transparent1x1 := by
  refine ⟨?_, ?_, ?_⟩
  · unfold spriteDraw
    rw [hs]
  · unfold spriteMaskFilter u16TextureFor
    rw [ht]
  · unfold spriteDisplacementFilter u16TextureFor
    rw [ht]

/-- Witness for C7 at a concrete state with empty resource tables. -/
theorem missing_resources_degrade_witness :
    spriteDraw (L := Unit) (fun _ s => s) ⟨[], [], [], 0, 0⟩ 4 = ⟨[], [], [], 0, 0⟩ ∧
      (spriteMaskFilter (fun _ => ⟨transparent1x1⟩) (fun _ => transparent1x1) [] 0 4 10 10).mask
        = transparent1x1 ∧
      (spriteDisplacementFilter (fun _ => ⟨transparent1x1⟩) (fun _ => transparent1x1) [] 0 4
          1 1 10 10 1 1 2).map = transparent1x1 :=
  missing_resources_degrade (fun _ s => s) ⟨[], [], [], 0, 0⟩ 4
    (fun _ => ⟨transparent1x1⟩) (fun _ => transparent1x1) [] 0 4 10 10 1 1 1 1 2 rfl rfl

/-! ## Theorems about `U8FrameRenderer::render` -/

/-- The number of exact chunks is the flooring division of the length. -/
theorem chunksExactGo_length (w : Nat) (hw : 0 < w) :
    ∀ (fuel : Nat) (l : List α), l.length ≤ fuel →
      (chunksExactGo w fuel l).length = l.length / w := by
  intro fuel
  induction fuel with
  | zero =>
    intro l hl
    have h0 : l.length = 0 := Nat.le_zero.mp hl
    simp [chunksExactGo, h0]
  | succ fuel ih =>
    intro l hl
    by_cases hwl : w ≤ l.length
    · simp only [chunksExactGo, if_pos (And.intro hwl hw), List.length_cons]
      rw [ih (l.drop w) (by simp [List.length_drop]; omega), List.length_drop]
      conv_rhs => rw [Nat.div_eq]
      rw [if_pos (And.intro hw hwl)]
    · have : ¬(w ≤ l.length ∧ 0 < w) := fun hc => hwl hc.1
      simp only [chunksExactGo, if_neg this, List.length_nil]
      rw [Nat.div_eq_of_lt (Nat.lt_of_not_le hwl)]

/-- `chunks_exact_mut(width)` produces `len / width` complete rows. -/
theorem chunksExact_length (w : Nat) (hw : 0 < w) (l : List α) :
    (chunksExact w l).length = l.length / w :=
  chunksExactGo_length w hw l.length l le_rfl

/-- Shape of the strip-loop output: one converted row per remaining line,
each of the output width. -/
theorem renderStripsGo_shape {P U : Type} (d : P) (toU8 : P → U)
    (rr : List ℚ → List (List P) → List (List P)) (width height : Nat) :
    ∀ (fuel yIdx : Nat) (buffer : List (List P)), height - yIdx ≤ fuel →
      (renderStripsGo d toU8 rr width height fuel yIdx buffer).length = height - yIdx ∧
      ∀ row ∈ renderStripsGo d toU8 rr width height fuel yIdx buffer, row.length = width := by
  intro fuel
  induction fuel with
  | zero =>
    intro yIdx buffer h
    refine ⟨?_, by simp [renderStripsGo]⟩
    simp only [renderStripsGo, List.length_nil]
    omega
  | succ fuel ih =>
    intro yIdx buffer h
    by_cases hy : height ≤ yIdx
    · simp only [renderStripsGo, if_pos hy, List.length_nil]
      exact ⟨by omega, by simp⟩
    · simp only [renderStripsGo, if_neg hy]
      obtain ⟨ihLen, ihRows⟩ := ih (min (yIdx + 8) height) (rr
        ((List.range' yIdx (min (yIdx + 8) height - yIdx)).map fun i => (i : ℚ)) buffer)
        (by omega)
      constructor
      · simp only [List.length_append, List.length_map, List.length_range, ihLen]
        omega
      · intro row hrow
        rcases List.mem_append.mp hrow with hmem | hmem
        · obtain ⟨i, _, rfl⟩ := List.mem_map.mp hmem
          simp
        · exact ihRows row hmem

/-- The flattening of uniform-width rows has length rows times width. -/
theorem flatten_length_uniform {α : Type} (w : Nat) :
    ∀ (L : List (List α)), (∀ row ∈ L, row.length = w) →
      L.flatten.length = L.length * w := by
  intro L
  induction L with
  | nil => intro _; simp
  | cons row rows ih =>
    intro h
    simp only [List.flatten_cons, List.length_append, List.length_cons]
    rw [h row (by simp), ih (fun r hr => h r (by simp [hr]))]
    ring

/-- C9: with a positive width, `U8FrameRenderer::render` panics exactly when
the destination holds fewer than `height` complete rows of `width` pixels
(`dest.len() / width < height`), and the panic fires before anything is
written; otherwise every pixel of the first `height` rows is overwritten
with rendered output that does not depend on the prior destination contents
(the same `written` block results from any destination of the same length),
and the rest of the destination is unchanged.  Since
`height ≤ dest.len() / width` whenever `dest.len() ≥ width * height`, the
panic branch is unreachable under that precondition. -/
theorem u8FrameRender_spec {P U : Type} (d : P) (toU8 : P → U)
    (rr : List ℚ → List (List P) → List (List P)) (width height : Nat) (hw : 0 < width)
    (dest dest' : List U) (hlen : dest'.length = dest.length) :
    (dest.length / width < height →
      u8FrameRender d toU8 rr width height dest = Except.error dest) ∧
    (height ≤ dest.length / width →
      ∃ written : List U, written.length = width * height ∧
        u8FrameRender d toU8 rr width height dest
          = Except.ok (written ++ dest.drop (width * height)) ∧
        u8FrameRender d toU8 rr width height dest'
          = Except.ok (written ++ dest'.drop (width * height))) := by
  constructor
  · intro hlt
    unfold u8FrameRender
    rw [if_pos]
    rw [chunksExact_length _ hw]
    exact hlt
  · intro hge
    refine ⟨(renderStripsGo d toU8 rr width height height 0
      (chunksExact width (List.replicate (width * 8) d))).flatten, ?_, ?_, ?_⟩
    · obtain ⟨hL, hRows⟩ := renderStripsGo_shape d toU8 rr width height height 0
        (chunksExact width (List.replicate (width * 8) d)) (by omega)
      rw [flatten_length_uniform width _ hRows, hL, Nat.sub_zero, Nat.mul_comm]
    · unfold u8FrameRender
      rw [if_neg]
      rw [chunksExact_length _ hw]
      omega
    · unfold u8FrameRender
      rw [if_neg]
      rw [chunksExact_length _ hw, hlen]
      omega

/-- Witness for C9 at a concrete 1 x 1 frame with a 2-pixel destination. -/
theorem u8FrameRender_spec_witness :
    ((([()] : List Unit).length / 1 < 1 →
      u8FrameRender () (fun _ => ()) (fun _ b => b) 1 1 [()] = Except.error [()]) ∧
    (1 ≤ ([()] : List Unit).length / 1 →
      ∃ written : List Unit, written.length = 1 * 1 ∧
        u8FrameRender () (fun _ => ()) (fun _ b => b) 1 1 [()]
          = Except.ok (written ++ ([()] : List Unit).drop (1 * 1)) ∧
        u8FrameRender () (fun _ => ()) (fun _ b => b) 1 1 [()]
          = Except.ok (written ++ ([()] : List Unit).drop (1 * 1)))) :=
  u8FrameRender_spec () (fun _ => ()) (fun _ b => b) 1 1 Nat.one_pos [()] [()] rfl

end FloDraw
